import Mathlib

/-!
Verification of the calendar-generation core of the Timetable-Sync-Pro
repository (`src/app.py`), shallowly embedded in Lean 4.

The embedding covers:
* `get_next_occurrence_date` (app.py lines 43-75): resolving an entry's
  weekday/time to the next occurrence relative to a current moment;
* `format_date_to_calendar` (lines 77-80): `strftime('%Y%m%dT%H%M%S')`;
* `generate_ics_content` (lines 82-132): the iCalendar document builder.

Python `datetime` values are modelled by `PyDateTime`: a day number in the
proleptic Gregorian calendar (day 0 = 0001-01-01, which is a Monday, so
`day % 7` is exactly Python's `datetime.weekday()` with Monday = 0) together
with the microseconds elapsed since midnight.  Python exceptions that escape
a function are modelled explicitly (`DTResult.raised`, `Except.error`),
since `datetime.replace` raises `ValueError` on out-of-range fields and the
source only catches errors around the `int` parsing.  String operations
(`str.split`, `str.lower`, `int(...)`, `str.replace`) are re-implemented on
`List Char` with structural recursion so that everything reduces in the
kernel; the `int` model covers the ASCII fragment of Python's syntax
(whitespace, sign, digits with single underscores between digits).
-/

/-- One timetable entry, the shape `{day, time, subject, location}` used by
`generate_ics_content` and `get_next_occurrence_date` in app.py. -/
structure Entry where
  day : String
  time : String
  subject : String
  location : String
deriving DecidableEq

/-- Microseconds in one day. -/
def microsPerDay : ℕ := 86400000000

/-- A Python `datetime`: absolute day number (day 0 = 0001-01-01, a Monday)
and microseconds since midnight (`hour*3600+minute*60+second` seconds plus
microseconds, all folded into one field). -/
structure PyDateTime where
  day : ℕ
  micro : ℕ
deriving DecidableEq

/-- Total microsecond timestamp; orders `PyDateTime`s the way `<` orders
Python datetimes (for `micro < microsPerDay`). -/
def PyDateTime.toMicro (d : PyDateTime) : ℕ :=
  d.day * microsPerDay + d.micro

/-- Python's `datetime.weekday()` is `day % 7` (Monday = 0); app.py lines
60-62 convert it to the Sunday = 0 frame via `(weekday + 1) % 7`. -/
def sundayIndexOfDay (day : ℕ) : ℕ :=
  (day % 7 + 1) % 7

/-- ASCII lower-casing of one character, the fragment of `str.lower()`
exercised by weekday names. -/
def asciiLower (c : Char) : Char :=
  if 'A' ≤ c ∧ c ≤ 'Z' then Char.ofNat (c.toNat + 32) else c

/-- `s.lower()` on the ASCII fragment. -/
def strLower (s : String) : String :=
  ⟨s.data.map asciiLower⟩

/-- `days_of_week.index(d)` guarded by membership (app.py line 46) over
`['sunday','monday','tuesday','wednesday','thursday','friday','saturday']`,
returning `none` for the sentinel `-1`. -/
def dayIndex (s : String) : Option ℕ :=
  if s = "sunday" then Option.some 0
  else if s = "monday" then Option.some 1
  else if s = "tuesday" then Option.some 2
  else if s = "wednesday" then Option.some 3
  else if s = "thursday" then Option.some 4
  else if s = "friday" then Option.some 5
  else if s = "saturday" then Option.some 6
  else Option.none

/-- `str.split(sep)` for a one-character separator, on `List Char`:
splitting the empty string gives `[[]]`, and empty fields are kept, exactly
as in Python. -/
def splitOnChar (c : Char) : List Char → List (List Char)
  | [] => [[]]
  | x :: xs =>
    match splitOnChar c xs with
    | [] => [[]]
    | h :: t => if x = c then [] :: h :: t else (x :: h) :: t

/-- ASCII decimal digit test. -/
def isDigitChar (c : Char) : Bool :=
  decide ('0' ≤ c ∧ c ≤ '9')

/-- Numeric value of an ASCII digit. -/
def digitVal (c : Char) : ℕ :=
  c.toNat - 48

/-- Digits of `int(...)` after the first digit: further digits, each
optionally preceded by a single underscore (Python allows `1_0`). -/
def pyDigitsRest : List Char → ℕ → Option ℕ
  | [], acc => Option.some acc
  | ['_'], _ => Option.none
  | '_' :: c :: rest, acc =>
    if isDigitChar c then pyDigitsRest rest (acc * 10 + digitVal c) else Option.none
  | c :: rest, acc =>
    if c = '_' then Option.none
    else if isDigitChar c then pyDigitsRest rest (acc * 10 + digitVal c) else Option.none

/-- The digit part of `int(...)`: at least one digit, underscores only
between digits. -/
def pyDigits : List Char → Option ℕ
  | [] => Option.none
  | c :: rest => if isDigitChar c then pyDigitsRest rest (digitVal c) else Option.none

/-- ASCII whitespace accepted (and stripped) by `int(...)`. -/
def isSpaceChar (c : Char) : Bool :=
  decide (c = ' ' ∨ c = '\t' ∨ c = '\n' ∨ c = '\x0b' ∨ c = '\x0c' ∨ c = '\r')

/-- Strip whitespace from both ends. -/
def stripWS (l : List Char) : List Char :=
  ((l.dropWhile isSpaceChar).reverse.dropWhile isSpaceChar).reverse

/-- Python `int(s)` on the ASCII fragment: optional surrounding whitespace,
optional sign, then digits (single underscores allowed between digits);
`none` models the `ValueError` raised on anything else. -/
def pyInt : List Char → Option ℤ :=
  fun l =>
    match stripWS l with
    | '+' :: rest => (pyDigits rest).map (fun n => (n : ℤ))
    | '-' :: rest => (pyDigits rest).map (fun n => -(n : ℤ))
    | rest => (pyDigits rest).map (fun n => (n : ℤ))

/-- App.py lines 51-55: pick `time.split('-')[0]` or `[1]` (an out-of-range
index is the caught `IndexError`), split the field on `':'`, and require the
unpacking `hour, minute = map(int, ...)` to succeed, which needs exactly two
fields that both parse as Python ints (anything else raises the caught
`ValueError`). -/
def parseSelectedTime (time : String) (is_start : Bool) : Option (ℤ × ℤ) :=
  let parts := splitOnChar '-' time.data
  match (if is_start then parts[0]? else parts[1]?) with
  | Option.none => Option.none
  | Option.some field =>
    match splitOnChar ':' field with
    | [a, b] =>
      match pyInt a, pyInt b with
      | Option.some h, Option.some m => Option.some (h, m)
      | _, _ => Option.none
    | _ => Option.none

/-- Microseconds since midnight of the clock time `hour:minute:00.000000`
installed by `replace(hour=..., minute=..., second=0, microsecond=0)`. -/
def targetMicro (h m : ℤ) : ℕ :=
  (h.toNat * 3600 + m.toNat * 60) * 1000000

/-- `d.replace(hour=h, minute=m, second=0, microsecond=0)`: succeeds exactly
when the fields are in range, otherwise Python raises `ValueError`
(modelled by `none`). -/
def pyReplaceHM (d : PyDateTime) (h m : ℤ) : Option PyDateTime :=
  if 0 ≤ h ∧ h ≤ 23 ∧ 0 ≤ m ∧ m ≤ 59 then
    Option.some ⟨d.day, targetMicro h m⟩
  else Option.none

/-- Outcome of `get_next_occurrence_date`: a returned datetime, a returned
`None`, or an uncaught exception escaping the function. -/
inductive DTResult where
  | val (d : PyDateTime)
  | retNone
  | raised
deriving DecidableEq

/-- App.py lines 43-75, `get_next_occurrence_date(item, is_start)`, with the
current moment `now` made an explicit argument.  Unrecognized weekday or
unparseable selected time field return `None`; the `replace` calls on lines
68 and 73 raise `ValueError` (uncaught) when the parsed hour or minute is
out of range. -/
def get_next_occurrence_date (item : Entry) (is_start : Bool) (now : PyDateTime) : DTResult :=
  match dayIndex (strLower item.day) with
  | Option.none => DTResult.retNone
  | Option.some target_day_index =>
    match parseSelectedTime item.time is_start with
    | Option.none => DTResult.retNone
    | Option.some (hour, minute) =>
      let today_index := sundayIndexOfDay now.day
      let diff := (target_day_index + 7 - today_index) % 7
      if diff = 0 then
        match pyReplaceHM now hour minute with
        | Option.none => DTResult.raised
        | Option.some check_time =>
          let diff2 := if check_time.toMicro < now.toMicro then 7 else 0
          match pyReplaceHM ⟨now.day + diff2, now.micro⟩ hour minute with
          | Option.none => DTResult.raised
          | Option.some d => DTResult.val d
      else
        match pyReplaceHM ⟨now.day + diff, now.micro⟩ hour minute with
        | Option.none => DTResult.raised
        | Option.some d => DTResult.val d

/-- Decimal digits of `n`, most significant first, with explicit fuel so
the recursion is structural (`n + 1` units of fuel always suffice). -/
def decDigitsFuel : ℕ → ℕ → List Char
  | 0, _ => []
  | fuel + 1, n =>
    if n < 10 then [Char.ofNat (48 + n)]
    else decDigitsFuel fuel (n / 10) ++ [Char.ofNat (48 + n % 10)]

/-- Python `str(n)` for a non-negative int: plain decimal digits. -/
def decimalStr (n : ℕ) : String :=
  ⟨decDigitsFuel (n + 1) n⟩

/-- Zero-padding to two digits, as `strftime` does for `%m %d %H %M %S`. -/
def pad2 (n : ℕ) : String :=
  if n < 10 then "0" ++ decimalStr n else decimalStr n

/-- Zero-padding to four digits, as `strftime('%Y')` does for years. -/
def pad4 (n : ℕ) : String :=
  if n < 10 then "000" ++ decimalStr n
  else if n < 100 then "00" ++ decimalStr n
  else if n < 1000 then "0" ++ decimalStr n
  else decimalStr n

/-- Proleptic-Gregorian date `(year, month, day)` of an absolute day number
(day 0 = 0001-01-01), the civil-from-days computation underlying Python's
`datetime` calendar fields. -/
def civilFromDays (day : ℕ) : ℕ × ℕ × ℕ :=
  let t := day + 306
  let era := t / 146097
  let doe := t % 146097
  let yoe := (doe - doe / 1460 + doe / 36524 - doe / 146096) / 365
  let y := yoe + era * 400
  let doy := doe - (365 * yoe + yoe / 4 - yoe / 100)
  let mp := (5 * doy + 2) / 153
  let d := doy - (153 * mp + 2) / 5 + 1
  let m := if mp < 10 then mp + 3 else mp - 9
  (if m ≤ 2 then y + 1 else y, m, d)

/-- App.py lines 77-80, `format_date_to_calendar`:
`d.strftime('%Y%m%dT%H%M%S')`. -/
def format_date_to_calendar (d : PyDateTime) : String :=
  match civilFromDays d.day with
  | (y, mo, da) =>
    let s := d.micro / 1000000
    pad4 y ++ pad2 mo ++ pad2 da ++ "T" ++
      pad2 (s / 3600) ++ pad2 (s % 3600 / 60) ++ pad2 (s % 60)

/-- App.py lines 92-95 and 100-101: `day_map.get(item['day'].lower(), '')`,
the two-letter iCalendar weekday code, `''` when the key is absent. -/
def dayToIcs (s : String) : String :=
  if s = "monday" then "MO"
  else if s = "tuesday" then "TU"
  else if s = "wednesday" then "WE"
  else if s = "thursday" then "TH"
  else if s = "friday" then "FR"
  else if s = "saturday" then "SA"
  else if s = "sunday" then "SU"
  else ""

/-- `s.replace(',', '\\,')` on `List Char`: every comma becomes
backslash-comma (app.py lines 115-117). -/
def escapeCommasL : List Char → List Char
  | [] => []
  | c :: rest =>
    if c = ',' then '\\' :: ',' :: escapeCommasL rest
    else c :: escapeCommasL rest

/-- String version of `escapeCommasL`. -/
def escapeCommas (s : String) : String :=
  ⟨escapeCommasL s.data⟩

/-- The VCALENDAR wrapper opening lines (app.py lines 84-90). -/
def calHeader : String :=
  "BEGIN:VCALENDAR\nVERSION:2.0\nPRODID:-//Timetable Organizer//EN\nCALSCALE:GREGORIAN\nX-WR-CALNAME:My University Timetable\n"

/-- The event UID `{start-timestamp}-{index}@{app_id}` (app.py line 120),
with the start timestamp taken from the entry's resolved start datetime. -/
def uidString (dtStart : String) (index : ℕ) (appId : String) : String :=
  dtStart ++ "-" ++ decimalStr index ++ "@" ++ appId

/-- One VEVENT block (app.py lines 119-129) for an emitted entry, given the
already-formatted start/end timestamps and the shared DTSTAMP. -/
def eventBlock (index : ℕ) (item : Entry) (dayIcs dtStart dtEnd dtStamp appId : String) :
    String :=
  let location := if item.location = "" then "" else escapeCommas item.location
  "BEGIN:VEVENT\n" ++
  ("UID:" ++ uidString dtStart index appId ++ "\n") ++
  ("DTSTAMP:" ++ dtStamp ++ "\n") ++
  ("DTSTART:" ++ dtStart ++ "\n") ++
  ("DTEND:" ++ dtEnd ++ "\n") ++
  ("SUMMARY:" ++ escapeCommas item.subject ++ "\n") ++
  (if location = "" then "" else "LOCATION:" ++ location ++ "\n") ++
  "DESCRIPTION:Generated from Timetable Organizer. Automatically repeats weekly.\n" ++
  ("RRULE:FREQ=WEEKLY;BYDAY=" ++ dayIcs ++ "\n") ++
  "END:VEVENT\n"

/-- The datetime carried by a `DTResult.val`, with a dummy default. -/
def valOf (r : DTResult) : PyDateTime :=
  match r with
  | DTResult.val d => d
  | _ => ⟨0, 0⟩

/-- Whether a resolver outcome is a returned datetime. -/
def isVal (r : DTResult) : Bool :=
  match r with
  | DTResult.val _ => true
  | _ => false

/-- The loop of app.py lines 99-129 over `enumerate(timetable_data)`,
accumulating the VEVENT blocks; `Except.error ()` models the uncaught
`ValueError` escaping `generate_ics_content`.  An entry is skipped when its
weekday is not in `day_map` or either resolution returns `None`; it is
emitted when both resolutions return datetimes. -/
def genLoop : List Entry → ℕ → String → String → PyDateTime → Except Unit String
  | [], _, _, _, _ => Except.ok ""
  | item :: rest, index, appId, dtStamp, now =>
    let dayIcs := dayToIcs (strLower item.day)
    if dayIcs = "" then genLoop rest (index + 1) appId dtStamp now
    else
      match get_next_occurrence_date item true now,
            get_next_occurrence_date item false now with
      | DTResult.raised, _ => Except.error ()
      | _, DTResult.raised => Except.error ()
      | DTResult.val sd, DTResult.val ed =>
        match genLoop rest (index + 1) appId dtStamp now with
        | Except.error e => Except.error e
        | Except.ok tail =>
          Except.ok (eventBlock index item dayIcs (format_date_to_calendar sd)
            (format_date_to_calendar ed) dtStamp appId ++ tail)
      | _, _ => genLoop rest (index + 1) appId dtStamp now

/-- App.py lines 82-132, `generate_ics_content(timetable_data, app_id)`,
with the two clock reads (`datetime.now()` on line 57 via the resolver, and
`datetime.utcnow()` on line 97) made explicit arguments. -/
def generate_ics_content (timetable_data : List Entry) (app_id : String)
    (now utcnow : PyDateTime) : Except Unit String :=
  let dt_stamp_utc := format_date_to_calendar utcnow ++ "Z"
  match genLoop timetable_data 0 app_id dt_stamp_utc now with
  | Except.error e => Except.error e
  | Except.ok body => Except.ok (calHeader ++ body ++ "END:VCALENDAR")

/-- Whether the generator emits an event for `item` (weekday in `day_map`
and both resolutions return datetimes), in the same shape as the loop. -/
def entryEmits (item : Entry) (now : PyDateTime) : Bool :=
  if dayToIcs (strLower item.day) = "" then false
  else
    match get_next_occurrence_date item true now,
          get_next_occurrence_date item false now with
    | DTResult.val _, DTResult.val _ => true
    | _, _ => false

/-- The `(index, entry)` pairs the loop emits events for, in order. -/
def emittedEvents : List Entry → ℕ → PyDateTime → List (ℕ × Entry)
  | [], _, _ => []
  | item :: rest, index, now =>
    if entryEmits item now then (index, item) :: emittedEvents rest (index + 1) now
    else emittedEvents rest (index + 1) now

/-- The VEVENT block the loop emits for entry `item` at position `index`. -/
def blockOf (index : ℕ) (item : Entry) (appId dtStamp : String) (now : PyDateTime) :
    String :=
  eventBlock index item (dayToIcs (strLower item.day))
    (format_date_to_calendar (valOf (get_next_occurrence_date item true now)))
    (format_date_to_calendar (valOf (get_next_occurrence_date item false now)))
    dtStamp appId

/-- The UID of the event emitted for `item` at position `index`. -/
def uidOf (index : ℕ) (item : Entry) (appId : String) (now : PyDateTime) : String :=
  uidString (format_date_to_calendar (valOf (get_next_occurrence_date item true now)))
    index appId

/-- Concatenation of a list of strings. -/
def joinStrings : List String → String
  | [] => ""
  | s :: rest => s ++ joinStrings rest

/-- Decimal value of a digit string, used to invert `decDigitsFuel`. -/
def valDigits (l : List Char) : ℕ :=
  l.foldl (fun acc c => acc * 10 + digitVal c) 0

/-- The segment `seg` occurs contiguously inside `doc`. -/
def containsSeg (doc seg : String) : Prop :=
  ∃ pre post : List Char, doc.data = pre ++ seg.data ++ post

/-- The escaping rule in the spec's words: every literal comma is replaced
by backslash-comma, all other characters are kept. -/
def escapeRule : List Char → List Char
  | [] => []
  | c :: rest => (if c = ',' then ['\\', ','] else [c]) ++ escapeRule rest

theorem dayIndex_lt7 {s : String} {k : ℕ} (h : dayIndex s = Option.some k) : k < 7 := by
  unfold dayIndex at h
  split_ifs at h <;> first
    | exact Option.noConfusion h
    | (injection h with he; omega)

theorem pyReplaceHM_eq (d : PyDateTime) {h m : ℤ} (hh : 0 ≤ h ∧ h ≤ 23)
    (hm : 0 ≤ m ∧ m ≤ 59) :
    pyReplaceHM d h m = Option.some ⟨d.day, targetMicro h m⟩ := by
  unfold pyReplaceHM
  rw [if_pos ⟨hh.1, hh.2, hm.1, hm.2⟩]

theorem targetMicro_lt {h m : ℤ} (hh : h ≤ 23) (hm : m ≤ 59) :
    targetMicro h m < microsPerDay := by
  unfold targetMicro microsPerDay
  omega

/-- Claim C1: for an entry whose weekday is recognized and whose selected
time field parses as a valid `HH:MM` clock time, and for any current moment,
`get_next_occurrence_date` returns a datetime on the entry's weekday (in the
Sunday = 0 frame of the source), at exactly the selected clock time with the
seconds and microseconds cleared, that is not earlier than the current
moment and is the soonest such second-aligned datetime, exactly as the
offset-mod-7 / roll-forward-a-week algorithm of the spec computes it. -/
theorem next_occurrence_correct (item : Entry) (b : Bool) (now : PyDateTime)
    (tdi : ℕ) (h m : ℤ)
    (hday : dayIndex (strLower item.day) = Option.some tdi)
    (htime : parseSelectedTime item.time b = Option.some (h, m))
    (hh : 0 ≤ h ∧ h ≤ 23) (hm : 0 ≤ m ∧ m ≤ 59)
    (hnow : now.micro < microsPerDay) :
    ∃ d : PyDateTime,
      get_next_occurrence_date item b now = DTResult.val d ∧
      sundayIndexOfDay d.day = tdi ∧
      d.micro = targetMicro h m ∧
      now.toMicro ≤ d.toMicro ∧
      ∀ e : PyDateTime, sundayIndexOfDay e.day = tdi → e.micro = targetMicro h m →
        now.toMicro ≤ e.toMicro → d.toMicro ≤ e.toMicro := by
  have htdi : tdi < 7 := dayIndex_lt7 hday
  have hT : targetMicro h m < microsPerDay := targetMicro_lt hh.2 hm.2
  simp only [microsPerDay] at hT hnow
  simp only [get_next_occurrence_date, hday, htime, sundayIndexOfDay]
  by_cases hd : (tdi + 7 - (now.day % 7 + 1) % 7) % 7 = 0
  · simp only [if_pos hd, pyReplaceHM_eq _ hh hm]
    by_cases hlt :
        (PyDateTime.mk now.day (targetMicro h m)).toMicro < now.toMicro
    · rw [if_pos hlt]
      refine ⟨⟨now.day + 7, targetMicro h m⟩, rfl, ?_, rfl, ?_, ?_⟩
      · show ((now.day + 7) % 7 + 1) % 7 = tdi
        omega
      · simp only [PyDateTime.toMicro, microsPerDay] at hlt ⊢
        omega
      · intro e he1 he2 he3
        simp only [PyDateTime.toMicro, microsPerDay] at hlt he3 ⊢
        omega
    · rw [if_neg hlt]
      refine ⟨⟨now.day + 0, targetMicro h m⟩, rfl, ?_, rfl, ?_, ?_⟩
      · show ((now.day + 0) % 7 + 1) % 7 = tdi
        omega
      · simp only [PyDateTime.toMicro, microsPerDay] at hlt ⊢
        omega
      · intro e he1 he2 he3
        simp only [PyDateTime.toMicro, microsPerDay] at hlt he3 ⊢
        omega
  · simp only [if_neg hd, pyReplaceHM_eq _ hh hm]
    refine ⟨⟨now.day + (tdi + 7 - (now.day % 7 + 1) % 7) % 7, targetMicro h m⟩,
      rfl, ?_, rfl, ?_, ?_⟩
    · show ((now.day + (tdi + 7 - (now.day % 7 + 1) % 7) % 7) % 7 + 1) % 7 = tdi
      omega
    · simp only [PyDateTime.toMicro, microsPerDay]
      omega
    · intro e he1 he2 he3
      simp only [PyDateTime.toMicro, microsPerDay] at he3 ⊢
      omega

theorem next_occurrence_correct_witness :
    ∃ d : PyDateTime,
      get_next_occurrence_date ⟨"Monday", "10:00-11:30", "Math", "R1"⟩ true
        ⟨700003, 0⟩ = DTResult.val d ∧
      sundayIndexOfDay d.day = 1 ∧
      d.micro = targetMicro 10 0 ∧
      (⟨700003, 0⟩ : PyDateTime).toMicro ≤ d.toMicro ∧
      ∀ e : PyDateTime, sundayIndexOfDay e.day = 1 → e.micro = targetMicro 10 0 →
        (⟨700003, 0⟩ : PyDateTime).toMicro ≤ e.toMicro → d.toMicro ≤ e.toMicro :=
  next_occurrence_correct _ true _ 1 10 0 (by decide) (by decide) (by decide)
    (by decide) (by decide)

theorem pyReplaceHM_none (d : PyDateTime) {h m : ℤ}
    (hr : ¬(0 ≤ h ∧ h ≤ 23 ∧ 0 ≤ m ∧ m ≤ 59)) :
    pyReplaceHM d h m = Option.none := by
  unfold pyReplaceHM
  rw [if_neg hr]

/-- Claim C2 (counterexample): when the current moment is exactly Monday
10:00:00.000000 (day 700014 is a Monday) and the entry is Monday
"10:00-11:30", the resolver returns the current moment itself, not the
occurrence 7 days later: `check_time < now` on app.py line 69 is strict, so
equal-to-now does NOT count as passed. -/
theorem boundary_equal_counterexample :
    get_next_occurrence_date ⟨"Monday", "10:00-11:30", "Math", "R1"⟩ true
      ⟨700014, 36000000000⟩ = DTResult.val ⟨700014, 36000000000⟩ ∧
    DTResult.val (⟨700014, 36000000000⟩ : PyDateTime) ≠
      DTResult.val ⟨700021, 36000000000⟩ := by decide

/-- Claim C2 (amended): if the current moment falls on the entry's weekday
exactly at the selected clock time (seconds and microseconds zero), the
resolver treats the time as NOT yet passed and returns the current moment
itself; only a strictly earlier target time rolls forward 7 days. -/
theorem boundary_equal_returns_now (item : Entry) (b : Bool) (now : PyDateTime)
    (tdi : ℕ) (h m : ℤ)
    (hday : dayIndex (strLower item.day) = Option.some tdi)
    (htime : parseSelectedTime item.time b = Option.some (h, m))
    (hh : 0 ≤ h ∧ h ≤ 23) (hm : 0 ≤ m ∧ m ≤ 59)
    (hsame : sundayIndexOfDay now.day = tdi)
    (hmicro : now.micro = targetMicro h m) :
    get_next_occurrence_date item b now = DTResult.val now := by
  have htdi := dayIndex_lt7 hday
  simp only [sundayIndexOfDay] at hsame
  simp only [get_next_occurrence_date, hday, htime, sundayIndexOfDay]
  have hd : (tdi + 7 - (now.day % 7 + 1) % 7) % 7 = 0 := by omega
  rw [if_pos hd]
  simp only [pyReplaceHM_eq _ hh hm]
  have hlt : ¬ (PyDateTime.mk now.day (targetMicro h m)).toMicro < now.toMicro := by
    simp only [PyDateTime.toMicro]
    rw [hmicro]
    exact lt_irrefl _
  rw [if_neg hlt]
  have hsame2 : PyDateTime.mk (now.day + 0) (targetMicro h m) = now := by
    obtain ⟨dd, mm⟩ := now
    simp only at hmicro
    rw [Nat.add_zero, hmicro]
  rw [hsame2]

theorem boundary_equal_returns_now_witness :
    get_next_occurrence_date ⟨"Monday", "10:00-11:30", "Math", "R1"⟩ true
      ⟨700000, 36000000000⟩ = DTResult.val ⟨700000, 36000000000⟩ :=
  boundary_equal_returns_now _ true _ 1 10 0 (by decide) (by decide) (by decide)
    (by decide) (by decide) (by decide)

/-- Claim C10: whenever the resolver returns a datetime, it is at most 7
days after the current moment, and its seconds-and-microseconds part is
zero (the microseconds-since-midnight are a multiple of one minute). -/
theorem next_occurrence_bounded (item : Entry) (b : Bool) (now d : PyDateTime)
    (hnow : now.micro < microsPerDay)
    (hv : get_next_occurrence_date item b now = DTResult.val d) :
    d.toMicro ≤ now.toMicro + 7 * microsPerDay ∧ d.micro % 60000000 = 0 := by
  simp only [microsPerDay] at hnow
  simp only [get_next_occurrence_date, sundayIndexOfDay] at hv
  rcases hday : dayIndex (strLower item.day) with _ | tdi
  · rw [hday] at hv
    exact DTResult.noConfusion hv
  rcases htime : parseSelectedTime item.time b with _ | hmp
  · rw [hday, htime] at hv
    exact DTResult.noConfusion hv
  obtain ⟨h, m⟩ := hmp
  rw [hday, htime] at hv
  simp only at hv
  by_cases hr : 0 ≤ h ∧ h ≤ 23 ∧ 0 ≤ m ∧ m ≤ 59
  · have hT : targetMicro h m < microsPerDay := targetMicro_lt hr.2.1 hr.2.2.2
    simp only [microsPerDay] at hT
    simp only [pyReplaceHM_eq _ ⟨hr.1, hr.2.1⟩ ⟨hr.2.2.1, hr.2.2.2⟩] at hv
    split at hv
    · split at hv
      · rename_i hcond
        injection hv with hvd
        subst hvd
        simp only [PyDateTime.toMicro, microsPerDay] at hcond ⊢
        constructor
        · omega
        · simp only [targetMicro]
          omega
      · injection hv with hvd
        subst hvd
        simp only [PyDateTime.toMicro, microsPerDay]
        constructor
        · omega
        · simp only [targetMicro]
          omega
    · injection hv with hvd
      subst hvd
      simp only [PyDateTime.toMicro, microsPerDay]
      constructor
      · omega
      · simp only [targetMicro]
        omega
  · simp only [pyReplaceHM_none _ hr] at hv
    rw [ite_self] at hv
    exact DTResult.noConfusion hv

theorem next_occurrence_bounded_witness :
    (⟨700007, 36000000000⟩ : PyDateTime).toMicro ≤
      (⟨700003, 0⟩ : PyDateTime).toMicro + 7 * microsPerDay ∧
    (⟨700007, 36000000000⟩ : PyDateTime).micro % 60000000 = 0 :=
  next_occurrence_bounded ⟨"Monday", "10:00-11:30", "Math", "R1"⟩ true
    ⟨700003, 0⟩ ⟨700007, 36000000000⟩ (by decide) (by decide)

/-- Claim C9: the generator is a pure function of the entry list, the
identifier and the (frozen) clock readings: identical inputs give
byte-for-byte identical documents.  In this embedding the two clock reads of
the source (`datetime.now()` and `datetime.utcnow()`) are explicit
arguments, and the output depends on nothing else. -/
theorem generator_deterministic (l1 l2 : List Entry) (a1 a2 : String)
    (n1 n2 u1 u2 : PyDateTime)
    (hl : l1 = l2) (ha : a1 = a2) (hn : n1 = n2) (hu : u1 = u2) :
    generate_ics_content l1 a1 n1 u1 = generate_ics_content l2 a2 n2 u2 := by
  rw [hl, ha, hn, hu]

theorem generator_deterministic_witness :
    generate_ics_content [⟨"Monday", "10:00-11:30", "Math", "R1"⟩] "app"
        ⟨700003, 0⟩ ⟨700003, 3600000000⟩ =
      generate_ics_content [⟨"Monday", "10:00-11:30", "Math", "R1"⟩] "app"
        ⟨700003, 0⟩ ⟨700003, 3600000000⟩ :=
  generator_deterministic _ _ _ _ _ _ _ _ rfl rfl rfl rfl

theorem splitOnChar_no_sep {c : Char} {l : List Char} (h : c ∉ l) :
    splitOnChar c l = [l] := by
  induction l with
  | nil => rfl
  | cons x xs ih =>
    have hx : ¬ x = c := fun he => h (he ▸ List.mem_cons_self x xs)
    have hxs : c ∉ xs := fun hm => h (List.mem_cons_of_mem _ hm)
    simp only [splitOnChar, ih hxs]
    rw [if_neg hx]

/-- Claim C3 (counterexample): for the time string "10:00" with no '-'
separator, the resolver does NOT signal failure for the start selection:
`"10:00".split('-')[0]` is the whole string, which parses, and a datetime is
returned (day 700028 is a Monday). -/
theorem resolver_no_dash_counterexample :
    get_next_occurrence_date ⟨"Monday", "10:00", "Math", "R1"⟩ true ⟨700028, 0⟩ =
      DTResult.val ⟨700028, 36000000000⟩ ∧
    DTResult.val (⟨700028, 36000000000⟩ : PyDateTime) ≠ DTResult.retNone := by decide

/-- Claim C3 (amended): the resolver returns `None` exactly when the
weekday name is unrecognized or the SELECTED time field fails to parse as
`HH:MM`; for a time string containing no '-', the end selection always
fails (`split('-')[1]` raises the caught `IndexError`), while the start
selection takes the whole string and can succeed. -/
theorem resolver_none_iff (item : Entry) (b : Bool) (now : PyDateTime) :
    (get_next_occurrence_date item b now = DTResult.retNone ↔
      dayIndex (strLower item.day) = Option.none ∨
        parseSelectedTime item.time b = Option.none) ∧
    ('-' ∉ item.time.data →
      get_next_occurrence_date item false now = DTResult.retNone) := by
  constructor
  · rcases hday : dayIndex (strLower item.day) with _ | tdi
    · simp only [get_next_occurrence_date, hday]
      simp
    · rcases htime : parseSelectedTime item.time b with _ | p
      · simp only [get_next_occurrence_date, hday, htime]
        simp
      · obtain ⟨h, m⟩ := p
        simp only [get_next_occurrence_date, hday, htime, sundayIndexOfDay]
        by_cases hr : 0 ≤ h ∧ h ≤ 23 ∧ 0 ≤ m ∧ m ≤ 59
        · simp only [pyReplaceHM_eq _ ⟨hr.1, hr.2.1⟩ ⟨hr.2.2.1, hr.2.2.2⟩]
          split <;> simp
        · simp only [pyReplaceHM_none _ hr]
          split <;> simp
  · intro hnd
    have hsp := splitOnChar_no_sep hnd
    rcases hday : dayIndex (strLower item.day) with _ | tdi
    all_goals simp only [get_next_occurrence_date, parseSelectedTime, hday, hsp]
    all_goals simp

theorem resolver_none_iff_witness :
    get_next_occurrence_date ⟨"Monday", "10:00", "Math", "R1"⟩ false ⟨700028, 0⟩ =
      DTResult.retNone :=
  (resolver_none_iff ⟨"Monday", "10:00", "Math", "R1"⟩ false ⟨700028, 0⟩).2 (by decide)

/-- Claim C4 (code-bug evidence): on an entry whose time field parses but
holds an out-of-range clock value ("25:00-26:00"), `generate_ics_content`
does not return a document at all: the `replace(hour=25, ...)` call on
app.py line 73 raises `ValueError` outside the `try` block of lines 51-55,
and the exception propagates out of the generator.  Day 700031 is an
arbitrary current moment (a Thursday); the crash does not depend on it. -/
theorem generator_raises_on_out_of_range_hour :
    generate_ics_content [⟨"Monday", "25:00-26:00", "Algebra", "R1"⟩]
      "flask-timetable-pro" ⟨700031, 0⟩ ⟨700031, 0⟩ = Except.error () := rfl

theorem entryEmits_eq_false_day {item : Entry} {now : PyDateTime}
    (hdi : dayToIcs (strLower item.day) = "") : entryEmits item now = false := by
  unfold entryEmits
  rw [if_pos hdi]

theorem entryEmits_eq {item : Entry} {now : PyDateTime}
    (hdi : ¬ dayToIcs (strLower item.day) = "") :
    entryEmits item now =
      (isVal (get_next_occurrence_date item true now) &&
        isVal (get_next_occurrence_date item false now)) := by
  unfold entryEmits
  rw [if_neg hdi]
  cases get_next_occurrence_date item true now <;>
    cases get_next_occurrence_date item false now <;> rfl

theorem emittedEvents_cons_true {item : Entry} {now : PyDateTime}
    (l : List Entry) (i : ℕ) (h : entryEmits item now = true) :
    emittedEvents (item :: l) i now = (i, item) :: emittedEvents l (i + 1) now := by
  simp only [emittedEvents]
  rw [h]
  rfl

theorem emittedEvents_cons_false {item : Entry} {now : PyDateTime}
    (l : List Entry) (i : ℕ) (h : entryEmits item now = false) :
    emittedEvents (item :: l) i now = emittedEvents l (i + 1) now := by
  simp only [emittedEvents]
  rw [h]
  rfl

set_option maxHeartbeats 2000000 in
theorem genLoop_ok_structure (l : List Entry) (i : ℕ) (a s : String)
    (now : PyDateTime) (body : String)
    (hv : genLoop l i a s now = Except.ok body) :
    body = joinStrings ((emittedEvents l i now).map
      (fun p => blockOf p.1 p.2 a s now)) := by
  induction l generalizing i body with
  | nil =>
    simp only [genLoop] at hv
    injection hv with hb
    subst hb
    rfl
  | cons item rest ih =>
    simp only [genLoop] at hv
    by_cases hdi : dayToIcs (strLower item.day) = ""
    · rw [if_pos hdi] at hv
      rw [emittedEvents_cons_false _ _ (entryEmits_eq_false_day hdi)]
      exact ih _ _ hv
    · rw [if_neg hdi] at hv
      cases hs : get_next_occurrence_date item true now <;>
        cases he : get_next_occurrence_date item false now
      all_goals simp only [hs, he] at hv
      -- start raised or end raised: the loop aborts, contradiction with ok
      case neg.val.raised | neg.retNone.raised | neg.raised.val
        | neg.raised.retNone | neg.raised.raised =>
        exact Except.noConfusion hv
      -- start and end both resolved: the entry is emitted
      case neg.val.val =>
        rename_i sd ed
        have het : entryEmits item now = true := by
          rw [entryEmits_eq hdi, hs, he]
          rfl
        rw [emittedEvents_cons_true _ _ het]
        split at hv
        · exact Except.noConfusion hv
        · rename_i tail hrec
          injection hv with hb
          subst hb
          rw [ih _ _ hrec]
          simp only [List.map_cons, joinStrings, blockOf, valOf, hs, he]
      -- one of the resolutions returned None: the entry is skipped
      case neg.val.retNone | neg.retNone.val | neg.retNone.retNone =>
        all_goals
          have hef : entryEmits item now = false := by
            rw [entryEmits_eq hdi, hs, he]
            rfl
        all_goals rw [emittedEvents_cons_false _ _ hef]
        all_goals exact ih _ _ hv

theorem mem_emittedEvents {l : List Entry} {i j : ℕ} {item : Entry}
    {now : PyDateTime} :
    (j, item) ∈ emittedEvents l i now ↔
      i ≤ j ∧ l[j - i]? = Option.some item ∧ entryEmits item now = true := by
  induction l generalizing i with
  | nil => simp [emittedEvents]
  | cons x rest ih =>
    simp only [emittedEvents]
    by_cases hx : entryEmits x now = true
    · rw [if_pos hx]
      constructor
      · intro hm
        rcases List.mem_cons.mp hm with heq | hm2
        · have hj : j = i ∧ item = x := by
            constructor <;> [exact congrArg Prod.fst heq; exact congrArg Prod.snd heq]
          obtain ⟨hj1, hj2⟩ := hj
          subst hj1
          subst hj2
          simp [hx]
        · obtain ⟨h1, h2, h3⟩ := ih.mp hm2
          refine ⟨by omega, ?_, h3⟩
          have hji : j - i = (j - (i + 1)) + 1 := by omega
          rw [hji, List.getElem?_cons_succ]
          exact h2
      · rintro ⟨hij, hget, hem⟩
        by_cases hji : j = i
        · subst hji
          have : x = item := by
            simpa using hget
          subst this
          exact List.mem_cons_self _ _
        · refine List.mem_cons_of_mem _ (ih.mpr ⟨by omega, ?_, hem⟩)
          have hshift : j - i = (j - (i + 1)) + 1 := by omega
          rw [hshift, List.getElem?_cons_succ] at hget
          exact hget
    · rw [if_neg hx]
      rw [ih]
      constructor
      · rintro ⟨h1, h2, h3⟩
        refine ⟨by omega, ?_, h3⟩
        have hshift : j - i = (j - (i + 1)) + 1 := by omega
        rw [hshift, List.getElem?_cons_succ]
        exact h2
      · rintro ⟨h1, h2, h3⟩
        by_cases hji : j = i
        · subst hji
          have : x = item := by simpa using h2
          subst this
          exact absurd h3 (by simp [hx])
        · refine ⟨by omega, ?_, h3⟩
          have hshift : j - i = (j - (i + 1)) + 1 := by omega
          rw [hshift, List.getElem?_cons_succ] at h2
          exact h2

theorem joinStrings_append (x y : List String) :
    joinStrings (x ++ y) = joinStrings x ++ joinStrings y := by
  induction x with
  | nil => simp [joinStrings]
  | cons s rest ih => simp [joinStrings, ih, String.append_assoc]

theorem entryEmits_true_iff {item : Entry} {now : PyDateTime} :
    entryEmits item now = true ↔
      ¬ dayToIcs (strLower item.day) = "" ∧
      (∃ sd, get_next_occurrence_date item true now = DTResult.val sd) ∧
      (∃ ed, get_next_occurrence_date item false now = DTResult.val ed) := by
  by_cases hdi : dayToIcs (strLower item.day) = ""
  · rw [entryEmits_eq_false_day hdi]
    simp [hdi]
  · rw [entryEmits_eq hdi]
    cases hs : get_next_occurrence_date item true now <;>
      cases he : get_next_occurrence_date item false now <;>
      simp [hdi, isVal]

theorem genLoop_all_skip (l : List Entry) (a s : String) (now : PyDateTime)
    (hall : ∀ item ∈ l, dayToIcs (strLower item.day) = "" ∨
      (get_next_occurrence_date item true now ≠ DTResult.raised ∧
       get_next_occurrence_date item false now ≠ DTResult.raised ∧
       (get_next_occurrence_date item true now = DTResult.retNone ∨
        get_next_occurrence_date item false now = DTResult.retNone))) :
    ∀ i, genLoop l i a s now = Except.ok "" := by
  induction l with
  | nil =>
    intro i
    rfl
  | cons item rest ih =>
    intro i
    have hitem := hall item (List.mem_cons_self _ _)
    have hrest := fun x hx => hall x (List.mem_cons_of_mem _ hx)
    simp only [genLoop]
    by_cases hdi : dayToIcs (strLower item.day) = ""
    · rw [if_pos hdi]
      exact ih hrest _
    · rw [if_neg hdi]
      rcases hitem with h | ⟨hs0, he0, hone⟩
      · exact absurd h hdi
      cases hs : get_next_occurrence_date item true now <;>
        cases he : get_next_occurrence_date item false now <;>
        simp only [hs, he]
      case neg.inr.intro.intro.val.val =>
        rcases hone with h | h
        · rw [hs] at h
          exact DTResult.noConfusion h
        · rw [he] at h
          exact DTResult.noConfusion h
      case neg.inr.intro.intro.val.retNone | neg.inr.intro.intro.retNone.val
        | neg.inr.intro.intro.retNone.retNone =>
        exact ih hrest _
      case neg.inr.intro.intro.val.raised | neg.inr.intro.intro.retNone.raised =>
        exact absurd he he0
      case neg.inr.intro.intro.raised.val | neg.inr.intro.intro.raised.retNone
        | neg.inr.intro.intro.raised.raised =>
        exact absurd hs hs0

/-- Claim C6 (counterexample): a one-entry list in which no entry is valid
(the entry is not emitted: its resolutions raise rather than succeed) does
NOT always produce the empty calendar document: with the out-of-range time
"25:00-26:00" the generator propagates a `ValueError` instead. -/
theorem all_invalid_can_error_counterexample :
    generate_ics_content [⟨"Monday", "25:00-26:00", "CE", ""⟩] "app"
      ⟨700038, 0⟩ ⟨700038, 0⟩ = Except.error () ∧
    entryEmits ⟨"Monday", "25:00-26:00", "CE", ""⟩ ⟨700038, 0⟩ = false :=
  ⟨rfl, by decide⟩

/-- Claim C6 (amended): with an empty entry list, or any list in which
every entry is skipped (unrecognized weekday, or a resolution returning no
value while neither resolution raises), the generator succeeds and returns
exactly the calendar header/footer wrapper with zero event blocks. -/
theorem all_skipped_yields_empty_calendar (l : List Entry) (a : String)
    (now utc : PyDateTime)
    (hall : ∀ item ∈ l, dayToIcs (strLower item.day) = "" ∨
      (get_next_occurrence_date item true now ≠ DTResult.raised ∧
       get_next_occurrence_date item false now ≠ DTResult.raised ∧
       (get_next_occurrence_date item true now = DTResult.retNone ∨
        get_next_occurrence_date item false now = DTResult.retNone))) :
    generate_ics_content l a now utc = Except.ok (calHeader ++ "END:VCALENDAR") := by
  simp only [generate_ics_content,
    genLoop_all_skip l a (format_date_to_calendar utc ++ "Z") now hall 0]
  rw [String.append_empty]

theorem all_skipped_yields_empty_calendar_witness :
    generate_ics_content [⟨"Funday", "10:00-11:30", "Basket Weaving", ""⟩,
        ⟨"Monday", "1000-1130", "Math", "R1"⟩] "app" ⟨700045, 0⟩ ⟨700045, 0⟩ =
      Except.ok (calHeader ++ "END:VCALENDAR") :=
  all_skipped_yields_empty_calendar _ _ _ _ (by decide)

/-- Claim C5 (amended): when the generator returns a document and the entry at
position `i` is invalid (unrecognized weekday or a failed start/end
resolution), no emitted event originates from position `i` (so the document
holds no event block for that entry), the document is exactly the wrapper
around the emitted events' blocks, and every valid entry at any other
position is still emitted. -/
theorem invalid_entries_skipped (l : List Entry) (a : String) (now utc : PyDateTime)
    (doc : String) (i : ℕ) (item : Entry)
    (hok : generate_ics_content l a now utc = Except.ok doc)
    (hi : l[i]? = Option.some item)
    (hbad : dayToIcs (strLower item.day) = "" ∨
      get_next_occurrence_date item true now = DTResult.retNone ∨
      get_next_occurrence_date item false now = DTResult.retNone) :
    (∀ p ∈ emittedEvents l 0 now, p.1 ≠ i) ∧
    doc = calHeader ++ joinStrings ((emittedEvents l 0 now).map
      (fun p => blockOf p.1 p.2 a (format_date_to_calendar utc ++ "Z") now)) ++
      "END:VCALENDAR" ∧
    (∀ j itm, l[j]? = Option.some itm → entryEmits itm now = true →
      (j, itm) ∈ emittedEvents l 0 now) := by
  simp only [generate_ics_content] at hok
  split at hok
  · exact Except.noConfusion hok
  · rename_i body hb
    injection hok with hd
    subst hd
    have hstruct := genLoop_ok_structure _ _ _ _ _ _ hb
    refine ⟨?_, by rw [hstruct], ?_⟩
    · rintro ⟨j, itm⟩ hp hji
      simp only at hji
      subst hji
      obtain ⟨-, hget, hem⟩ := mem_emittedEvents.mp hp
      rw [Nat.sub_zero, hi] at hget
      injection hget with hget
      subst hget
      obtain ⟨hd1, ⟨sd, hs⟩, ⟨ed, he⟩⟩ := entryEmits_true_iff.mp hem
      rcases hbad with h | h | h
      · exact hd1 h
      · rw [hs] at h
        exact DTResult.noConfusion h
      · rw [he] at h
        exact DTResult.noConfusion h
    · intro j itm hj hemit
      refine mem_emittedEvents.mpr ⟨Nat.zero_le j, ?_, hemit⟩
      rw [Nat.sub_zero]
      exact hj

theorem invalid_entries_skipped_witness :
    (∀ p ∈ emittedEvents [⟨"Funday", "10:00-11:30", "Basket Weaving", "R9"⟩] 0
        (⟨700031, 0⟩ : PyDateTime), p.1 ≠ 0) ∧
    calHeader ++ "" ++ "END:VCALENDAR" =
      calHeader ++ joinStrings
        ((emittedEvents [⟨"Funday", "10:00-11:30", "Basket Weaving", "R9"⟩] 0
          (⟨700031, 0⟩ : PyDateTime)).map
          (fun p => blockOf p.1 p.2 "app"
            (format_date_to_calendar (⟨700031, 0⟩ : PyDateTime) ++ "Z")
            (⟨700031, 0⟩ : PyDateTime))) ++ "END:VCALENDAR" ∧
    (∀ j itm, [⟨"Funday", "10:00-11:30", "Basket Weaving", "R9"⟩][j]? =
        Option.some itm → entryEmits itm (⟨700031, 0⟩ : PyDateTime) = true →
      (j, itm) ∈ emittedEvents [⟨"Funday", "10:00-11:30", "Basket Weaving", "R9"⟩] 0
        (⟨700031, 0⟩ : PyDateTime)) :=
  invalid_entries_skipped _ "app" _ ⟨700031, 0⟩ _ 0 _ rfl rfl (Or.inl (by decide))

theorem escapeCommasL_eq_rule (l : List Char) : escapeCommasL l = escapeRule l := by
  induction l with
  | nil => rfl
  | cons c rest ih =>
    simp only [escapeCommasL, escapeRule, ih]
    split_ifs <;> simp

theorem containsSeg_self (s : String) : containsSeg s s :=
  ⟨[], [], by simp⟩

theorem containsSeg_left {t seg : String} (s : String) (h : containsSeg t seg) :
    containsSeg (s ++ t) seg := by
  obtain ⟨pre, post, hp⟩ := h
  refine ⟨s.data ++ pre, post, ?_⟩
  rw [String.data_append, hp]
  simp [List.append_assoc]

theorem containsSeg_right {s seg : String} (t : String) (h : containsSeg s seg) :
    containsSeg (s ++ t) seg := by
  obtain ⟨pre, post, hp⟩ := h
  refine ⟨pre, post ++ t.data, ?_⟩
  rw [String.data_append, hp]
  simp [List.append_assoc]

theorem escapeCommasL_ne_nil {l : List Char} (h : l ≠ []) : escapeCommasL l ≠ [] := by
  cases l with
  | nil => exact absurd rfl h
  | cons c rest =>
    simp only [escapeCommasL]
    split_ifs <;> simp

theorem escapeCommas_ne_empty {s : String} (h : s ≠ "") : escapeCommas s ≠ "" := by
  intro he
  have hd : escapeCommasL s.data = [] := by
    have := congrArg String.data he
    simpa [escapeCommas] using this
  have hnil : s.data = [] := by
    cases hl : s.data with
    | nil => rfl
    | cons c rest =>
      rw [hl] at hd
      exact absurd hd (escapeCommasL_ne_nil (by simp))
  apply h
  apply String.ext
  rw [hnil]

theorem eventBlock_contains_summary (index : ℕ) (item : Entry)
    (dayIcs dtStart dtEnd dtStamp appId : String) :
    containsSeg (eventBlock index item dayIcs dtStart dtEnd dtStamp appId)
      ("SUMMARY:" ++ escapeCommas item.subject ++ "\n") := by
  simp only [eventBlock]
  apply containsSeg_right
  apply containsSeg_right
  apply containsSeg_right
  apply containsSeg_right
  exact containsSeg_left _ (containsSeg_self _)

theorem eventBlock_contains_location (index : ℕ) (item : Entry)
    (dayIcs dtStart dtEnd dtStamp appId : String) (hloc : item.location ≠ "") :
    containsSeg (eventBlock index item dayIcs dtStart dtEnd dtStamp appId)
      ("LOCATION:" ++ escapeCommas item.location ++ "\n") := by
  simp only [eventBlock]
  rw [if_neg hloc, if_neg (escapeCommas_ne_empty hloc)]
  apply containsSeg_right
  apply containsSeg_right
  apply containsSeg_right
  exact containsSeg_left _ (containsSeg_self _)

/-- Claim C7: every event the generator emits carries the entry's subject
and (when non-empty) location with every literal comma replaced by
backslash-comma: the document contains the `SUMMARY:`/`LOCATION:` lines
built from the escaped text, and the escaping function is exactly the
replace-each-comma rule. -/
theorem emitted_commas_escaped (l : List Entry) (a : String) (now utc : PyDateTime)
    (doc : String) (j : ℕ) (item : Entry)
    (hok : generate_ics_content l a now utc = Except.ok doc)
    (hmem : (j, item) ∈ emittedEvents l 0 now) :
    containsSeg doc ("SUMMARY:" ++ escapeCommas item.subject ++ "\n") ∧
    (item.location ≠ "" →
      containsSeg doc ("LOCATION:" ++ escapeCommas item.location ++ "\n")) ∧
    (escapeCommas item.subject).data = escapeRule item.subject.data ∧
    (escapeCommas item.location).data = escapeRule item.location.data := by
  simp only [generate_ics_content] at hok
  split at hok
  · exact Except.noConfusion hok
  · rename_i body hb
    injection hok with hd
    subst hd
    have hstruct := genLoop_ok_structure _ _ _ _ _ _ hb
    subst hstruct
    obtain ⟨l1, l2, hsplit⟩ := List.append_of_mem hmem
    rw [hsplit, List.map_append, List.map_cons, joinStrings_append]
    simp only [joinStrings]
    refine ⟨?_, ?_, (congrArg String.data rfl).trans (escapeCommasL_eq_rule _),
      (congrArg String.data rfl).trans (escapeCommasL_eq_rule _)⟩
    · apply containsSeg_right
      apply containsSeg_left
      apply containsSeg_left
      apply containsSeg_right
      simp only [blockOf]
      exact eventBlock_contains_summary _ _ _ _ _ _ _
    · intro hloc
      apply containsSeg_right
      apply containsSeg_left
      apply containsSeg_left
      apply containsSeg_right
      simp only [blockOf]
      exact eventBlock_contains_location _ _ _ _ _ _ _ hloc

set_option maxRecDepth 8192 in
theorem emitted_commas_escaped_witness :
    containsSeg "BEGIN:VCALENDAR\nVERSION:2.0\nPRODID:-//Timetable Organizer//EN\nCALSCALE:GREGORIAN\nX-WR-CALNAME:My University Timetable\nBEGIN:VEVENT\nUID:19170910T100000-0@app\nDTSTAMP:19170906T000000Z\nDTSTART:19170910T100000\nDTEND:19170910T113000\nSUMMARY:Math\\, Advanced\nLOCATION:Room 1\\, Building A\nDESCRIPTION:Generated from Timetable Organizer. Automatically repeats weekly.\nRRULE:FREQ=WEEKLY;BYDAY=MO\nEND:VEVENT\nEND:VCALENDAR"
      ("SUMMARY:" ++ escapeCommas "Math, Advanced" ++ "\n") ∧
    (("Room 1, Building A" : String) ≠ "" →
      containsSeg "BEGIN:VCALENDAR\nVERSION:2.0\nPRODID:-//Timetable Organizer//EN\nCALSCALE:GREGORIAN\nX-WR-CALNAME:My University Timetable\nBEGIN:VEVENT\nUID:19170910T100000-0@app\nDTSTAMP:19170906T000000Z\nDTSTART:19170910T100000\nDTEND:19170910T113000\nSUMMARY:Math\\, Advanced\nLOCATION:Room 1\\, Building A\nDESCRIPTION:Generated from Timetable Organizer. Automatically repeats weekly.\nRRULE:FREQ=WEEKLY;BYDAY=MO\nEND:VEVENT\nEND:VCALENDAR"
        ("LOCATION:" ++ escapeCommas "Room 1, Building A" ++ "\n")) ∧
    (escapeCommas "Math, Advanced").data = escapeRule "Math, Advanced".data ∧
    (escapeCommas "Room 1, Building A").data = escapeRule "Room 1, Building A".data :=
  emitted_commas_escaped
    [⟨"Monday", "10:00-11:30", "Math, Advanced", "Room 1, Building A"⟩]
    "app" ⟨700052, 0⟩ ⟨700052, 0⟩ _ 0
    ⟨"Monday", "10:00-11:30", "Math, Advanced", "Room 1, Building A"⟩
    rfl (by decide)

theorem digit_toNat {n : ℕ} (h : n < 10) : (Char.ofNat (48 + n)).toNat = 48 + n := by
  interval_cases n <;> decide

theorem decDigitsFuel_digits {fuel n : ℕ} {c : Char}
    (hc : c ∈ decDigitsFuel fuel n) : 48 ≤ c.toNat ∧ c.toNat ≤ 57 := by
  induction fuel generalizing n with
  | zero => simp [decDigitsFuel] at hc
  | succ fuel ih =>
    simp only [decDigitsFuel] at hc
    by_cases hn : n < 10
    · rw [if_pos hn] at hc
      simp only [List.mem_singleton] at hc
      subst hc
      rw [digit_toNat hn]
      omega
    · rw [if_neg hn] at hc
      rcases List.mem_append.mp hc with hm | hm
      · exact ih hm
      · simp only [List.mem_singleton] at hm
        subst hm
        rw [digit_toNat (by omega : n % 10 < 10)]
        omega

theorem decimalStr_no_dash {n : ℕ} : '-' ∉ (decimalStr n).data := by
  intro hm
  have hb := @decDigitsFuel_digits (n + 1) n '-' (by simpa [decimalStr] using hm)
  have h45 : ('-' : Char).toNat = 45 := rfl
  omega

theorem decimalStr_no_at {n : ℕ} : '@' ∉ (decimalStr n).data := by
  intro hm
  have hb := @decDigitsFuel_digits (n + 1) n '@' (by simpa [decimalStr] using hm)
  have h64 : ('@' : Char).toNat = 64 := rfl
  omega

theorem valDigits_decDigitsFuel {fuel n : ℕ} (h : n < fuel) :
    valDigits (decDigitsFuel fuel n) = n := by
  induction fuel generalizing n with
  | zero => omega
  | succ fuel ih =>
    simp only [decDigitsFuel]
    by_cases hn : n < 10
    · rw [if_pos hn]
      simp only [valDigits, List.foldl_cons, List.foldl_nil]
      rw [digitVal, digit_toNat hn]
      omega
    · rw [if_neg hn]
      have h10 : n / 10 < fuel := by omega
      have hval := ih h10
      simp only [valDigits, List.foldl_append, List.foldl_cons, List.foldl_nil] at hval ⊢
      rw [hval, digitVal, digit_toNat (by omega : n % 10 < 10)]
      omega

theorem decimalStr_injective {a b : ℕ} (h : decimalStr a = decimalStr b) : a = b := by
  have hd : decDigitsFuel (a + 1) a = decDigitsFuel (b + 1) b := by
    have := congrArg String.data h
    simpa [decimalStr] using this
  have va := valDigits_decDigitsFuel (Nat.lt_succ_self a)
  have vb := valDigits_decDigitsFuel (Nat.lt_succ_self b)
  rw [← va, ← vb, hd]

theorem append_sep_inj {c : Char} {l1 r1 l2 r2 : List Char}
    (h1 : c ∉ l1) (h2 : c ∉ l2)
    (he : l1 ++ c :: r1 = l2 ++ c :: r2) : l1 = l2 ∧ r1 = r2 := by
  induction l1 generalizing l2 with
  | nil =>
    cases l2 with
    | nil => simpa using he
    | cons x xs =>
      simp only [List.nil_append, List.cons_append, List.cons.injEq] at he
      exact absurd he.1.symm (fun hx => h2 (hx ▸ List.mem_cons_self x xs))
  | cons y ys ih =>
    cases l2 with
    | nil =>
      simp only [List.nil_append, List.cons_append, List.cons.injEq] at he
      exact absurd he.1 (fun hx => h1 (hx ▸ List.mem_cons_self y ys))
    | cons x xs =>
      simp only [List.cons_append, List.cons.injEq] at he
      obtain ⟨hyx, hrest⟩ := he
      have h1' : c ∉ ys := fun hm => h1 (List.mem_cons_of_mem _ hm)
      have h2' : c ∉ xs := fun hm => h2 (List.mem_cons_of_mem _ hm)
      obtain ⟨hl, hr⟩ := ih h1' h2' hrest
      exact ⟨by rw [hyx, hl], hr⟩

theorem pad2_digits {n : ℕ} {c : Char} (hc : c ∈ (pad2 n).data) :
    48 ≤ c.toNat ∧ c.toNat ≤ 57 := by
  unfold pad2 at hc
  split_ifs at hc <;>
    simp only [String.data_append, List.mem_append, decimalStr] at hc
  · rcases hc with hm | hm
    · have hz : ∀ x ∈ ("0" : String).data, 48 ≤ x.toNat ∧ x.toNat ≤ 57 := by decide
      exact hz _ hm
    · exact decDigitsFuel_digits hm
  · exact decDigitsFuel_digits hc

theorem pad4_digits {n : ℕ} {c : Char} (hc : c ∈ (pad4 n).data) :
    48 ≤ c.toNat ∧ c.toNat ≤ 57 := by
  unfold pad4 at hc
  split_ifs at hc <;>
    simp only [String.data_append, List.mem_append, decimalStr] at hc
  · rcases hc with hm | hm
    · have hz : ∀ x ∈ ("000" : String).data, 48 ≤ x.toNat ∧ x.toNat ≤ 57 := by decide
      exact hz _ hm
    · exact decDigitsFuel_digits hm
  · rcases hc with hm | hm
    · have hz : ∀ x ∈ ("00" : String).data, 48 ≤ x.toNat ∧ x.toNat ≤ 57 := by decide
      exact hz _ hm
    · exact decDigitsFuel_digits hm
  · rcases hc with hm | hm
    · have hz : ∀ x ∈ ("0" : String).data, 48 ≤ x.toNat ∧ x.toNat ≤ 57 := by decide
      exact hz _ hm
    · exact decDigitsFuel_digits hm
  · exact decDigitsFuel_digits hc

theorem format_no_dash {d : PyDateTime} : '-' ∉ (format_date_to_calendar d).data := by
  intro hm
  have h45 : ('-' : Char).toNat = 45 := rfl
  unfold format_date_to_calendar at hm
  rcases hciv : civilFromDays d.day with ⟨y, mo, da⟩
  rw [hciv] at hm
  simp only [String.data_append, List.mem_append] at hm
  rcases hm with ((((((hm | hm) | hm) | hm) | hm) | hm) | hm)
  · have hb := pad4_digits hm
    omega
  · have hb := pad2_digits hm
    omega
  · have hb := pad2_digits hm
    omega
  · exact absurd hm (by decide)
  · have hb := pad2_digits hm
    omega
  · have hb := pad2_digits hm
    omega
  · have hb := pad2_digits hm
    omega

theorem uidString_inj_index {f1 f2 a : String} {i j : ℕ}
    (hf1 : '-' ∉ f1.data) (hf2 : '-' ∉ f2.data)
    (he : uidString f1 i a = uidString f2 j a) : i = j := by
  have hd := congrArg String.data he
  simp only [uidString, String.data_append, List.append_assoc,
    List.cons_append, List.nil_append] at hd
  obtain ⟨-, hrest⟩ := append_sep_inj hf1 hf2 hd
  obtain ⟨hdec, -⟩ := append_sep_inj decimalStr_no_at decimalStr_no_at hrest
  exact decimalStr_injective (String.ext hdec)

set_option maxRecDepth 8192 in
set_option maxHeartbeats 1000000 in
theorem blockOf_inj_index {i j : ℕ} {it1 it2 : Entry} {a s : String}
    {now : PyDateTime}
    (hb : blockOf i it1 a s now = blockOf j it2 a s now) : i = j := by
  have hd := congrArg String.data hb
  simp only [blockOf, eventBlock, uidString, String.data_append,
    List.append_assoc, List.cons_append, List.nil_append] at hd
  simp only [List.cons.injEq, true_and] at hd
  obtain ⟨-, hrest⟩ := append_sep_inj format_no_dash format_no_dash hd
  obtain ⟨hdec, -⟩ := append_sep_inj decimalStr_no_at decimalStr_no_at hrest
  exact decimalStr_injective (String.ext hdec)

/-- Claim C8: every emitted event is keyed `{start-timestamp}-{index}@{id}`
with the entry's position as index; two entries at distinct positions — in
particular identical entries — are emitted as two distinct event blocks in
the document with distinct UIDs. -/
theorem distinct_positions_distinct_uids (l : List Entry) (a : String)
    (now utc : PyDateTime) (doc : String) (i j : ℕ) (it1 it2 : Entry)
    (hok : generate_ics_content l a now utc = Except.ok doc)
    (h1 : (i, it1) ∈ emittedEvents l 0 now)
    (h2 : (j, it2) ∈ emittedEvents l 0 now)
    (hij : i ≠ j) :
    uidOf i it1 a now ≠ uidOf j it2 a now ∧
    blockOf i it1 a (format_date_to_calendar utc ++ "Z") now ≠
      blockOf j it2 a (format_date_to_calendar utc ++ "Z") now ∧
    blockOf i it1 a (format_date_to_calendar utc ++ "Z") now ∈
      (emittedEvents l 0 now).map
        (fun p => blockOf p.1 p.2 a (format_date_to_calendar utc ++ "Z") now) ∧
    blockOf j it2 a (format_date_to_calendar utc ++ "Z") now ∈
      (emittedEvents l 0 now).map
        (fun p => blockOf p.1 p.2 a (format_date_to_calendar utc ++ "Z") now) ∧
    doc = calHeader ++ joinStrings ((emittedEvents l 0 now).map
      (fun p => blockOf p.1 p.2 a (format_date_to_calendar utc ++ "Z") now)) ++
      "END:VCALENDAR" := by
  refine ⟨?_, ?_, ?_, ?_, ?_⟩
  · intro he
    exact hij (uidString_inj_index format_no_dash format_no_dash
      (by simpa [uidOf] using he))
  · intro he
    exact hij (blockOf_inj_index he)
  · exact List.mem_map.mpr ⟨(i, it1), h1, rfl⟩
  · exact List.mem_map.mpr ⟨(j, it2), h2, rfl⟩
  · simp only [generate_ics_content] at hok
    split at hok
    · exact Except.noConfusion hok
    · rename_i body hb
      injection hok with hd
      subst hd
      rw [genLoop_ok_structure _ _ _ _ _ _ hb]

set_option maxRecDepth 8192 in
theorem distinct_positions_distinct_uids_witness :
    uidOf 1 ⟨"Monday", "10:00-11:30", "Algebra", "R1"⟩ "app" ⟨700052, 0⟩ ≠
      uidOf 2 ⟨"Monday", "10:00-11:30", "Algebra", "R1"⟩ "app" ⟨700052, 0⟩ ∧
    blockOf 1 ⟨"Monday", "10:00-11:30", "Algebra", "R1"⟩ "app"
        (format_date_to_calendar (⟨700052, 0⟩ : PyDateTime) ++ "Z") ⟨700052, 0⟩ ≠
      blockOf 2 ⟨"Monday", "10:00-11:30", "Algebra", "R1"⟩ "app"
        (format_date_to_calendar (⟨700052, 0⟩ : PyDateTime) ++ "Z") ⟨700052, 0⟩ ∧
    blockOf 1 ⟨"Monday", "10:00-11:30", "Algebra", "R1"⟩ "app"
        (format_date_to_calendar (⟨700052, 0⟩ : PyDateTime) ++ "Z") ⟨700052, 0⟩ ∈
      (emittedEvents [⟨"Funday", "10:00-11:30", "Basket", "R9"⟩,
          ⟨"Monday", "10:00-11:30", "Algebra", "R1"⟩,
          ⟨"Monday", "10:00-11:30", "Algebra", "R1"⟩] 0 ⟨700052, 0⟩).map
        (fun p => blockOf p.1 p.2 "app"
          (format_date_to_calendar (⟨700052, 0⟩ : PyDateTime) ++ "Z") ⟨700052, 0⟩) ∧
    blockOf 2 ⟨"Monday", "10:00-11:30", "Algebra", "R1"⟩ "app"
        (format_date_to_calendar (⟨700052, 0⟩ : PyDateTime) ++ "Z") ⟨700052, 0⟩ ∈
      (emittedEvents [⟨"Funday", "10:00-11:30", "Basket", "R9"⟩,
          ⟨"Monday", "10:00-11:30", "Algebra", "R1"⟩,
          ⟨"Monday", "10:00-11:30", "Algebra", "R1"⟩] 0 ⟨700052, 0⟩).map
        (fun p => blockOf p.1 p.2 "app"
          (format_date_to_calendar (⟨700052, 0⟩ : PyDateTime) ++ "Z") ⟨700052, 0⟩) ∧
    "BEGIN:VCALENDAR\nVERSION:2.0\nPRODID:-//Timetable Organizer//EN\nCALSCALE:GREGORIAN\nX-WR-CALNAME:My University Timetable\nBEGIN:VEVENT\nUID:19170910T100000-1@app\nDTSTAMP:19170906T000000Z\nDTSTART:19170910T100000\nDTEND:19170910T113000\nSUMMARY:Algebra\nLOCATION:R1\nDESCRIPTION:Generated from Timetable Organizer. Automatically repeats weekly.\nRRULE:FREQ=WEEKLY;BYDAY=MO\nEND:VEVENT\nBEGIN:VEVENT\nUID:19170910T100000-2@app\nDTSTAMP:19170906T000000Z\nDTSTART:19170910T100000\nDTEND:19170910T113000\nSUMMARY:Algebra\nLOCATION:R1\nDESCRIPTION:Generated from Timetable Organizer. Automatically repeats weekly.\nRRULE:FREQ=WEEKLY;BYDAY=MO\nEND:VEVENT\nEND:VCALENDAR" =
      calHeader ++ joinStrings ((emittedEvents [⟨"Funday", "10:00-11:30", "Basket", "R9"⟩,
          ⟨"Monday", "10:00-11:30", "Algebra", "R1"⟩,
          ⟨"Monday", "10:00-11:30", "Algebra", "R1"⟩] 0 ⟨700052, 0⟩).map
        (fun p => blockOf p.1 p.2 "app"
          (format_date_to_calendar (⟨700052, 0⟩ : PyDateTime) ++ "Z") ⟨700052, 0⟩)) ++
      "END:VCALENDAR" :=
  distinct_positions_distinct_uids
    [⟨"Funday", "10:00-11:30", "Basket", "R9"⟩,
     ⟨"Monday", "10:00-11:30", "Algebra", "R1"⟩,
     ⟨"Monday", "10:00-11:30", "Algebra", "R1"⟩]
    "app" ⟨700052, 0⟩ ⟨700052, 0⟩ _ 1 2
    ⟨"Monday", "10:00-11:30", "Algebra", "R1"⟩
    ⟨"Monday", "10:00-11:30", "Algebra", "R1"⟩
    rfl (by decide) (by decide) (by decide)

/-- Claim C5 (counterexample): it is NOT always true that, in the presence
of an invalid entry, every other entry is still processed: a later entry
with an out-of-range clock value ("25:00-26:00") makes the generator raise,
so no document and no event blocks are produced for anyone. -/
theorem skip_not_always_counterexample :
    generate_ics_content [⟨"Funday", "10:00-11:30", "Basket", "R9"⟩,
      ⟨"Monday", "10:00-11:30", "Algebra", "R1"⟩,
      ⟨"Monday", "25:00-26:00", "Chem", "R2"⟩] "app" ⟨700059, 0⟩ ⟨700059, 0⟩ =
      Except.error () ∧
    entryEmits ⟨"Monday", "10:00-11:30", "Algebra", "R1"⟩ ⟨700059, 0⟩ = true :=
  ⟨rfl, by decide⟩
